import Mathlib

/-!
Shallow embedding of the LMSR market-maker scripts
(src/python/multioption.py and src/python/single.py) over the reals,
with theorems settling the specification claims.

Python dictionaries keyed by option names are modelled as total functions
String → ℝ read at the declared options; the mutable market state is
threaded explicitly.
-/

noncomputable section

/-- A trade-log record, as built in run_market of both scripts:
the dict with keys choice, shares, cost. -/
structure Trade where
  choice : String
  shares : ℝ
  cost : ℝ

namespace Multi

/-- multioption.py line 63: exp_values, one entry per option. -/
def expValues (quantities : String → ℝ) (b : ℝ) (opt : String) : ℝ :=
  Real.exp (quantities opt / b)

/-- multioption.py line 64: denominator = sum of exp_values over options. -/
def denominator (options : List String) (quantities : String → ℝ) (b : ℝ) : ℝ :=
  (options.map (expValues quantities b)).sum

/-- multioption.py line 66: prices dict. -/
def prices (options : List String) (quantities : String → ℝ) (b : ℝ) (opt : String) : ℝ :=
  expValues quantities b opt / denominator options quantities b

/-- multioption.py line 70 / 78: cost = b * ln(sum of exponentials). -/
def cost (options : List String) (quantities : String → ℝ) (b : ℝ) : ℝ :=
  b * Real.log (denominator options quantities b)

/-- multioption.py lines 73-74: quantities_new = quantities.copy();
quantities_new[choice] += shares. -/
def updateQ (quantities : String → ℝ) (choice : String) (shares : ℝ) : String → ℝ :=
  fun opt => if opt = choice then quantities opt + shares else quantities opt

/-- multioption.py lines 51-91, run_calculation: validates the choice
(raising ValueError for an undeclared option), computes cost before and
after applying the share delta, and returns the new quantities together
with the trade cost. -/
def run_calculation (quantities : String → ℝ) (bet : String × ℝ) (b : ℝ)
    (options : List String) : Except String ((String → ℝ) × ℝ) :=
  if bet.1 ∈ options then
    Except.ok (updateQ quantities bet.1 bet.2,
      cost options (updateQ quantities bet.1 bet.2) b - cost options quantities b)
  else
    Except.error "ValueError: Invalid choice"

/-- multioption.py lines 106-113, the trading loop of run_market: threads
quantities through run_calculation and appends a record per bet; a raised
ValueError aborts the whole run. -/
def runMarketAux (options : List String) (b : ℝ) :
    List (String × ℝ) → (String → ℝ) → List Trade →
      Except String ((String → ℝ) × List Trade)
  | [], quantities, trades => Except.ok (quantities, trades)
  | bet :: rest, quantities, trades =>
    match run_calculation quantities bet b options with
    | Except.error e => Except.error e
    | Except.ok (q2, c) => runMarketAux options b rest q2 (trades ++ [⟨bet.1, bet.2, c⟩])

/-- multioption.py lines 94-113: run_market starts from all-zero
quantities and an empty trade list. -/
def run_market (bet_series : List (String × ℝ)) (b : ℝ) (options : List String) :
    Except String ((String → ℝ) × List Trade) :=
  runMarketAux options b bet_series (fun _ => 0) []

/-- multioption.py line 148: payout = shares * 1.0 if choice == opt else 0.0. -/
def payout (winning : String) (t : Trade) : ℝ :=
  if t.choice = winning then t.shares * 1 else 0

/-- multioption.py line 150: profits[opt] = payout - cost. -/
def profit (winning : String) (t : Trade) : ℝ :=
  payout winning t - t.cost

/-- multioption.py lines 133, 142: total_cost accumulated over all trades. -/
def total_cost (trades : List Trade) : ℝ :=
  (trades.map Trade.cost).sum

/-- multioption.py lines 134, 151: total_payouts[opt] accumulated over all trades. -/
def total_payouts (trades : List Trade) (opt : String) : ℝ :=
  (trades.map (payout opt)).sum

/-- multioption.py line 164: net_profit = total_payouts[opt] - total_cost. -/
def net_profit (trades : List Trade) (opt : String) : ℝ :=
  total_payouts trades opt - total_cost trades

/-- multioption.py line 136: max_loss = b*math.log(len(options)). -/
def max_loss (b : ℝ) (options : List String) : ℝ :=
  b * Real.log (options.length : ℝ)

/-- The price/cost quotation read off the current state, multioption.py
lines 63-70 (also 120-122): the prices dict over the options and the
current cost, computed from quantities without writing to them.
Modelled from the spec: the operation Market.quote() of section 4.4 is
absent from src as a standalone API (the scripts compute prices and
cost_before inline in run_calculation); it is assembled here from the
source's price and cost computations as a state-passing operation
returning its output together with the (unchanged) state. -/
def quoteOp (options : List String) (b : ℝ) (quantities : String → ℝ) :
    ((List (String × ℝ)) × ℝ) × (String → ℝ) :=
  ((options.map fun opt => (opt, prices options quantities b opt),
    cost options quantities b), quantities)

end Multi

namespace Single

/-- single.py lines 50-86, run_calculation for the binary market: no
validation of the choice; computes the new pair of quantities and the
trade cost. -/
def run_calculation (q_yes q_no : ℝ) (bet : String × ℝ) (b : ℝ) : ℝ × ℝ × ℝ :=
  (q_yes + (if bet.1 = "yes" then bet.2 else 0),
   q_no + (if bet.1 = "no" then bet.2 else 0),
   b * Real.log (Real.exp ((q_yes + (if bet.1 = "yes" then bet.2 else 0)) / b) +
       Real.exp ((q_no + (if bet.1 = "no" then bet.2 else 0)) / b)) -
     b * Real.log (Real.exp (q_yes / b) + Real.exp (q_no / b)))

/-- single.py lines 101-108, the trading loop of run_market. -/
def runMarketAux (b : ℝ) :
    List (String × ℝ) → ℝ → ℝ → List Trade → ℝ × ℝ × List Trade
  | [], q_yes, q_no, trades => (q_yes, q_no, trades)
  | bet :: rest, q_yes, q_no, trades =>
    let r := run_calculation q_yes q_no bet b
    runMarketAux b rest r.1 r.2.1 (trades ++ [⟨bet.1, bet.2, r.2.2⟩])

/-- single.py lines 89-108: run_market starts from q_yes = q_no = 0 and an
empty trade list. -/
def run_market (bet_series : List (String × ℝ)) (b : ℝ) : ℝ × ℝ × List Trade :=
  runMarketAux b bet_series 0 0 []

/-- single.py lines 115-119: the final yes-price computed by run_market. -/
def final_price_yes (q_yes q_no b : ℝ) : ℝ :=
  Real.exp (q_yes / b) / (Real.exp (q_yes / b) + Real.exp (q_no / b))

/-- single.py lines 142, 145: the total payout if yes wins, accumulated
over all trades. -/
def total_payout_if_yes (trades : List Trade) : ℝ :=
  (trades.map fun t => if t.choice = "yes" then t.shares * 1 else 0).sum

end Single

/-- Modelled from the spec: the component StableLogSumExp (section 4.1) is
absent from src (both scripts exponentiate naively); per the spec it
computes m = max(x_i) and returns m + log(sum of e^(x_i - m)), and an
empty input is an InvalidInput error. -/
def stableLogSumExp (xs : List ℝ) : Except String ℝ :=
  match xs with
  | [] => Except.error "InvalidInput"
  | y :: ys =>
    Except.ok ((ys.foldl max y) +
      Real.log (((y :: ys).map fun x => Real.exp (x - ys.foldl max y)).sum))

lemma sum_map_exp_sub (xs : List ℝ) (m : ℝ) :
    (xs.map fun x => Real.exp (x - m)).sum = (xs.map Real.exp).sum / Real.exp m := by
  induction xs with
  | nil => simp
  | cons y ys ih =>
    rw [List.map_cons, List.sum_cons, ih, List.map_cons, List.sum_cons,
      Real.exp_sub, add_div]

/-- The max-shift identity: shifting by any constant m leaves the
log-sum-exp value unchanged. -/
lemma logsumexp_shift (xs : List ℝ) (m : ℝ) (h : xs ≠ []) :
    m + Real.log ((xs.map fun x => Real.exp (x - m)).sum) =
      Real.log ((xs.map Real.exp).sum) := by
  have hpos : 0 < (xs.map Real.exp).sum := by
    refine List.sum_pos _ ?_ (by simpa using h)
    intro x hx
    obtain ⟨a, _, rfl⟩ := List.mem_map.1 hx
    exact Real.exp_pos _
  rw [sum_map_exp_sub, Real.log_div hpos.ne' (Real.exp_ne_zero m), Real.log_exp]
  ring

namespace Multi

lemma sum_map_one (l : List String) : (l.map fun _ => (1 : ℝ)).sum = l.length := by
  induction l with
  | nil => simp
  | cons a t ih =>
    simp only [List.map_cons, List.sum_cons, ih, List.length_cons]
    push_cast
    ring

lemma denominator_nonneg (options : List String) (q : String → ℝ) (b : ℝ) :
    0 ≤ denominator options q b := by
  refine List.sum_nonneg ?_
  intro x hx
  obtain ⟨a, _, rfl⟩ := List.mem_map.1 hx
  exact (Real.exp_pos _).le

lemma denominator_pos (options : List String) (q : String → ℝ) (b : ℝ)
    (h : options ≠ []) : 0 < denominator options q b := by
  refine List.sum_pos _ ?_ (by simpa using h)
  intro x hx
  obtain ⟨a, _, rfl⟩ := List.mem_map.1 hx
  exact Real.exp_pos _

lemma expValues_le_denominator (options : List String) (q : String → ℝ) (b : ℝ)
    {w : String} (hw : w ∈ options) :
    expValues q b w ≤ denominator options q b := by
  refine List.single_le_sum ?_ _ (List.mem_map_of_mem _ hw)
  intro x hx
  obtain ⟨a, _, rfl⟩ := List.mem_map.1 hx
  exact (Real.exp_pos _).le

lemma expValues_lt_denominator (options : List String) (q : String → ℝ) (b : ℝ)
    {w : String} (hlen : 2 ≤ options.length) (hw : w ∈ options) :
    expValues q b w < denominator options q b := by
  obtain ⟨s, t, rfl⟩ := List.append_of_mem hw
  have hs : 0 ≤ (s.map (expValues q b)).sum := by
    refine List.sum_nonneg ?_
    intro x hx
    obtain ⟨a, _, rfl⟩ := List.mem_map.1 hx
    exact (Real.exp_pos _).le
  have ht : 0 ≤ (t.map (expValues q b)).sum := by
    refine List.sum_nonneg ?_
    intro x hx
    obtain ⟨a, _, rfl⟩ := List.mem_map.1 hx
    exact (Real.exp_pos _).le
  rcases s with _ | ⟨a, s2⟩
  · have htne : t ≠ [] := by
      rintro rfl
      simp at hlen
    have htpos : 0 < (t.map (expValues q b)).sum := by
      refine List.sum_pos _ ?_ (by simpa using htne)
      intro x hx
      obtain ⟨a, _, rfl⟩ := List.mem_map.1 hx
      exact Real.exp_pos _
    simp only [denominator, List.nil_append, List.map_cons, List.sum_cons]
    linarith
  · have hapos : 0 < expValues q b a := Real.exp_pos _
    have hs2 : 0 ≤ (s2.map (expValues q b)).sum := by
      refine List.sum_nonneg ?_
      intro x hx
      obtain ⟨a2, _, rfl⟩ := List.mem_map.1 hx
      exact (Real.exp_pos _).le
    simp only [denominator, List.cons_append, List.map_cons, List.sum_cons,
      List.map_append, List.sum_append]
    linarith

lemma runMarketAux_cons_mem (options : List String) (b : ℝ) (bet : String × ℝ)
    (rest : List (String × ℝ)) (q : String → ℝ) (tr : List Trade)
    (hm : bet.1 ∈ options) :
    runMarketAux options b (bet :: rest) q tr =
      runMarketAux options b rest (updateQ q bet.1 bet.2)
        (tr ++ [⟨bet.1, bet.2,
          cost options (updateQ q bet.1 bet.2) b - cost options q b⟩]) := by
  simp [runMarketAux, run_calculation, hm]

lemma runMarketAux_cons_not_mem (options : List String) (b : ℝ) (bet : String × ℝ)
    (rest : List (String × ℝ)) (q : String → ℝ) (tr : List Trade)
    (hm : bet.1 ∉ options) :
    runMarketAux options b (bet :: rest) q tr =
      Except.error "ValueError: Invalid choice" := by
  simp [runMarketAux, run_calculation, hm]

lemma total_cost_append (tr : List Trade) (t : Trade) :
    total_cost (tr ++ [t]) = total_cost tr + t.cost := by
  simp [total_cost]

lemma total_payouts_append (tr : List Trade) (t : Trade) (w : String) :
    total_payouts (tr ++ [t]) w = total_payouts tr w + payout w t := by
  simp [total_payouts]

/-- Telescoping of the trading loop: a successful run changes the
accumulated trade cost by the cost-function difference and the
accumulated payout of each outcome by the change of its quantity. -/
lemma runMarketAux_telescope (options : List String) (b : ℝ) :
    ∀ (bets : List (String × ℝ)) (q : String → ℝ) (tr : List Trade)
      (qf : String → ℝ) (trf : List Trade),
      runMarketAux options b bets q tr = Except.ok (qf, trf) →
      total_cost trf - total_cost tr = cost options qf b - cost options q b
      ∧ ∀ w, total_payouts trf w - total_payouts tr w = qf w - q w := by
  intro bets
  induction bets with
  | nil =>
    intro q tr qf trf h
    simp only [runMarketAux, Except.ok.injEq, Prod.mk.injEq] at h
    obtain ⟨h1, h2⟩ := h
    subst h1; subst h2
    simp
  | cons bet rest ih =>
    intro q tr qf trf h
    by_cases hm : bet.1 ∈ options
    · rw [runMarketAux_cons_mem options b bet rest q tr hm] at h
      obtain ⟨h1, h2⟩ := ih _ _ _ _ h
      constructor
      · rw [total_cost_append] at h1
        have hc : Trade.cost ⟨bet.1, bet.2,
            cost options (updateQ q bet.1 bet.2) b - cost options q b⟩ =
            cost options (updateQ q bet.1 bet.2) b - cost options q b := rfl
        rw [hc] at h1
        linarith
      · intro w
        have h2w := h2 w
        rw [total_payouts_append] at h2w
        have hq : updateQ q bet.1 bet.2 w - q w =
            payout w ⟨bet.1, bet.2,
              cost options (updateQ q bet.1 bet.2) b - cost options q b⟩ := by
          by_cases hwc : w = bet.1
          · subst hwc
            simp [updateQ, payout]
          · have hcw : bet.1 ≠ w := Ne.symm hwc
            simp [updateQ, payout, hwc, hcw]
        linarith [hq, h2w]
    · rw [runMarketAux_cons_not_mem options b bet rest q tr hm] at h
      exact absurd h (by simp)

/-- The cost of the all-zero quantity vector is b times the log of the
number of outcomes, i.e. exactly max_loss. -/
lemma cost_zero_quantities (options : List String) (b : ℝ) :
    cost options (fun _ => 0) b = max_loss b options := by
  have hden : denominator options (fun _ => 0) b = options.length := by
    have : (options.map (expValues (fun _ => 0) b)) = options.map fun _ => (1 : ℝ) := by
      refine List.map_congr_left ?_
      intro a _
      simp [expValues]
    rw [denominator, this, sum_map_one]
  rw [cost, hden, max_loss]

/-- For a declared outcome, its quantity is at most the current cost. -/
lemma le_cost_of_mem (options : List String) (q : String → ℝ) (b : ℝ)
    {w : String} (hb : 0 < b) (hw : w ∈ options) :
    q w ≤ cost options q b := by
  have h1 : Real.exp (q w / b) ≤ denominator options q b :=
    expValues_le_denominator options q b hw
  have h2 : q w / b ≤ Real.log (denominator options q b) := by
    have := Real.log_le_log (Real.exp_pos _) h1
    rwa [Real.log_exp] at this
  have h3 : b * (q w / b) ≤ b * Real.log (denominator options q b) :=
    mul_le_mul_of_nonneg_left h2 hb.le
  rw [mul_div_cancel₀ _ hb.ne'] at h3
  exact h3

/-- Increasing one coordinate of the quantity vector can only increase the
cost function. -/
lemma cost_mono_update (options : List String) (q : String → ℝ) (b : ℝ)
    (i : String) (d : ℝ) (hb : 0 < b) (hne : options ≠ []) (hd : 0 ≤ d) :
    cost options q b ≤ cost options (updateQ q i d) b := by
  have hterm : ∀ opt ∈ options, expValues q b opt ≤ expValues (updateQ q i d) b opt := by
    intro opt _
    have hqq : q opt ≤ updateQ q i d opt := by
      by_cases hoi : opt = i
      · simp only [updateQ, if_pos hoi]
        linarith
      · simp [updateQ, hoi]
    exact Real.exp_le_exp.2 ((div_le_div_right hb).2 hqq)
  have hden : denominator options q b ≤ denominator options (updateQ q i d) b :=
    List.sum_le_sum hterm
  exact mul_le_mul_of_nonneg_left
    (Real.log_le_log (denominator_pos options q b hne) hden) hb.le

/-- Buying s nonnegative shares raises the cost by at most s. -/
lemma cost_update_le (options : List String) (q : String → ℝ) (b : ℝ)
    (i : String) (s : ℝ) (hb : 0 < b) (hne : options ≠ []) (hs : 0 ≤ s) :
    cost options (updateQ q i s) b ≤ s + cost options q b := by
  have hterm : ∀ opt ∈ options,
      expValues (updateQ q i s) b opt ≤ Real.exp (s / b) * expValues q b opt := by
    intro opt _
    by_cases hoi : opt = i
    · have : expValues (updateQ q i s) b opt = Real.exp (q opt / b + s / b) := by
        simp only [expValues, updateQ, if_pos hoi, add_div]
      rw [this, Real.exp_add, expValues, mul_comm]
    · have : expValues (updateQ q i s) b opt = expValues q b opt := by
        simp [expValues, updateQ, hoi]
      rw [this]
      exact le_mul_of_one_le_left (Real.exp_pos _).le
        (Real.one_le_exp (div_nonneg hs hb.le))
  have hden : denominator options (updateQ q i s) b ≤
      Real.exp (s / b) * denominator options q b := by
    calc denominator options (updateQ q i s) b
        ≤ (options.map fun opt => Real.exp (s / b) * expValues q b opt).sum :=
          List.sum_le_sum hterm
      _ = Real.exp (s / b) * denominator options q b :=
          List.sum_map_mul_left _ _ _
  have hlog : Real.log (denominator options (updateQ q i s) b) ≤
      s / b + Real.log (denominator options q b) := by
    have h1 := Real.log_le_log (denominator_pos options (updateQ q i s) b hne) hden
    rwa [Real.log_mul (Real.exp_ne_zero _) (denominator_pos options q b hne).ne',
      Real.log_exp] at h1
  calc cost options (updateQ q i s) b
      = b * Real.log (denominator options (updateQ q i s) b) := rfl
    _ ≤ b * (s / b + Real.log (denominator options q b)) :=
        mul_le_mul_of_nonneg_left hlog hb.le
    _ = s + cost options q b := by
        rw [mul_add, mul_div_cancel₀ _ hb.ne']
        rfl

end Multi

/-- Claim C2: for every trade sequence applied from the all-zero initial
quantity vector with b > 0 and every declared winning outcome w, the
settlement satisfies totalPayout[w] - totalCost ≤ maxLoss = b * ln(N). -/
theorem worst_case_loss_bound (options : List String) (b : ℝ) (hb : 0 < b)
    (bets : List (String × ℝ)) (w : String) (hw : w ∈ options)
    (qf : String → ℝ) (trades : List Trade)
    (hrun : Multi.run_market bets b options = Except.ok (qf, trades)) :
    Multi.total_payouts trades w - Multi.total_cost trades ≤ Multi.max_loss b options := by
  obtain ⟨h1, h2⟩ :=
    Multi.runMarketAux_telescope options b bets (fun _ => 0) [] qf trades hrun
  have h2w := h2 w
  have hc0 : Multi.total_cost [] = 0 := rfl
  have hp0 : Multi.total_payouts [] w = 0 := rfl
  rw [hc0, sub_zero] at h1
  rw [hp0, sub_zero, sub_zero] at h2w
  rw [Multi.cost_zero_quantities options b] at h1
  have hle := Multi.le_cost_of_mem options qf b hb hw
  linarith

/-- Claim C2 witness: a concrete one-trade market satisfying the bound. -/
theorem worst_case_loss_bound_witness :
    Multi.total_payouts
        [⟨"yes", 2, Multi.cost ["yes", "no"] (Multi.updateQ (fun _ => 0) "yes" 2) 1 -
            Multi.cost ["yes", "no"] (fun _ => 0) 1⟩] "yes" -
      Multi.total_cost
        [⟨"yes", 2, Multi.cost ["yes", "no"] (Multi.updateQ (fun _ => 0) "yes" 2) 1 -
            Multi.cost ["yes", "no"] (fun _ => 0) 1⟩] ≤
      Multi.max_loss 1 ["yes", "no"] := by
  refine worst_case_loss_bound ["yes", "no"] 1 one_pos [("yes", 2)] "yes" (by simp)
    (Multi.updateQ (fun _ => 0) "yes" 2) _ ?_
  rw [Multi.run_market,
    Multi.runMarketAux_cons_mem ["yes", "no"] 1 ("yes", 2) [] _ _ (by simp)]
  rfl

/-- Claim C3: applying a trade computes cost_before = C(q,b), forms the
updated quantities with only the chosen coordinate raised by the shares,
computes cost_after = C(q_new,b), returns trade_cost = cost_after -
cost_before, and the market loop commits the new quantities and appends
the record to the trade log. -/
theorem trade_costing_correct (q : String → ℝ) (b : ℝ) (options : List String)
    (choice : String) (shares : ℝ) (hmem : choice ∈ options)
    (rest : List (String × ℝ)) (trades : List Trade) :
    Multi.run_calculation q (choice, shares) b options =
      Except.ok (Multi.updateQ q choice shares,
        Multi.cost options (Multi.updateQ q choice shares) b - Multi.cost options q b)
    ∧ (∀ opt, Multi.updateQ q choice shares opt =
        if opt = choice then q opt + shares else q opt)
    ∧ Multi.cost options q b =
        b * Real.log ((options.map fun opt => Real.exp (q opt / b)).sum)
    ∧ Multi.runMarketAux options b ((choice, shares) :: rest) q trades =
        Multi.runMarketAux options b rest (Multi.updateQ q choice shares)
          (trades ++ [⟨choice, shares,
            Multi.cost options (Multi.updateQ q choice shares) b -
              Multi.cost options q b⟩]) := by
  refine ⟨?_, fun opt => rfl, rfl, ?_⟩
  · simp [Multi.run_calculation, hmem]
  · exact Multi.runMarketAux_cons_mem options b (choice, shares) rest q trades hmem

/-- Claim C3 witness: a concrete trade on a two-outcome market. -/
theorem trade_costing_correct_witness :
    Multi.run_calculation (fun _ => 0) ("yes", 3) 1 ["yes", "no"] =
      Except.ok (Multi.updateQ (fun _ => 0) "yes" 3,
        Multi.cost ["yes", "no"] (Multi.updateQ (fun _ => 0) "yes" 3) 1 -
          Multi.cost ["yes", "no"] (fun _ => 0) 1) :=
  (trade_costing_correct (fun _ => 0) 1 ["yes", "no"] "yes" 3 (by simp) [] []).1

/-- Claim C6: settlement computes per trade payout = shares if the trade's
outcome won else 0 and profit = payout - cost, and aggregates totalCost,
totalPayout (the total shares bought of each outcome) and netProfit;
it is a pure function of the trade log. -/
theorem settlement_correct (trades : List Trade) (w : String) :
    (∀ t ∈ trades, Multi.payout w t = (if t.choice = w then t.shares * 1 else 0)
      ∧ Multi.profit w t = Multi.payout w t - t.cost)
    ∧ Multi.total_cost trades = (trades.map Trade.cost).sum
    ∧ Multi.total_payouts trades w =
        ((trades.filter fun t => t.choice == w).map Trade.shares).sum
    ∧ Multi.net_profit trades w = Multi.total_payouts trades w - Multi.total_cost trades := by
  refine ⟨fun t _ => ⟨rfl, rfl⟩, rfl, ?_, rfl⟩
  induction trades with
  | nil => rfl
  | cons t ts ih =>
    simp only [Multi.total_payouts, List.map_cons, List.sum_cons, List.filter_cons]
    by_cases h : t.choice = w
    · have hp : Multi.payout w t = t.shares := by simp [Multi.payout, h]
      simp only [Multi.total_payouts] at ih
      simp [h, hp, ih]
    · have hp : Multi.payout w t = 0 := by simp [Multi.payout, h]
      simp only [Multi.total_payouts] at ih
      simp [h, hp, ih]

/-- Claim C6 witness: settlement aggregates on a concrete one-trade log. -/
theorem settlement_correct_witness :
    Multi.total_payouts [⟨"yes", 5, 2⟩] "yes" =
      ((([⟨"yes", 5, 2⟩] : List Trade).filter fun t => t.choice == "yes").map
        Trade.shares).sum :=
  (settlement_correct [⟨"yes", 5, 2⟩] "yes").2.2.1

/-- Claim C10: a zero-share trade on a declared outcome is accepted, leaves
every quantity unchanged, has trade cost exactly 0, and is still appended
to the trade log; the binary engine behaves the same way. -/
theorem zero_share_trade_policy (options : List String) (q : String → ℝ) (b : ℝ)
    (choice : String) (trades : List Trade) (hmem : choice ∈ options) :
    Multi.run_calculation q (choice, 0) b options = Except.ok (q, 0)
    ∧ Multi.runMarketAux options b [(choice, 0)] q trades =
        Except.ok (q, trades ++ [⟨choice, 0, 0⟩])
    ∧ ∀ q_yes q_no b2 : ℝ,
        Single.run_calculation q_yes q_no ("yes", 0) b2 = (q_yes, q_no, 0) := by
  have hupd : Multi.updateQ q choice 0 = q := by
    funext opt
    by_cases h : opt = choice
    · simp [Multi.updateQ, h]
    · simp [Multi.updateQ, h]
  refine ⟨?_, ?_, ?_⟩
  · simp [Multi.run_calculation, hmem, hupd]
  · rw [Multi.runMarketAux_cons_mem options b (choice, 0) [] q trades hmem]
    show Multi.runMarketAux options b [] (Multi.updateQ q choice 0)
        (trades ++ [⟨choice, 0,
          Multi.cost options (Multi.updateQ q choice 0) b - Multi.cost options q b⟩]) = _
    rw [hupd, sub_self]
    rfl
  · intro qy qn b2
    simp [Single.run_calculation]

/-- Claim C10 witness: a concrete zero-share trade. -/
theorem zero_share_trade_policy_witness :
    Multi.run_calculation (fun _ => 0) ("yes", 0) 1 ["yes", "no"] =
      Except.ok ((fun _ => 0), 0) :=
  (zero_share_trade_policy ["yes", "no"] (fun _ => 0) 1 "yes" [] (by simp)).1

/-- Claim C4: for every quantity vector and b > 0 on a market with at
least two outcomes, every quoted price lies strictly between 0 and 1 and
the prices over the declared outcomes sum to exactly 1 (hence within any
tolerance). -/
theorem prices_form_probability_distribution (options : List String)
    (q : String → ℝ) (b : ℝ) (hb : 0 < b) (hlen : 2 ≤ options.length) :
    (∀ opt ∈ options, 0 < Multi.prices options q b opt
      ∧ Multi.prices options q b opt < 1)
    ∧ (options.map (Multi.prices options q b)).sum = 1 := by
  have hne : options ≠ [] := by
    rintro rfl
    simp at hlen
  have hden := Multi.denominator_pos options q b hne
  constructor
  · intro opt hopt
    constructor
    · exact div_pos (Real.exp_pos _) hden
    · exact (div_lt_one hden).2 (Multi.expValues_lt_denominator options q b hlen hopt)
  · have : (options.map (Multi.prices options q b)).sum =
        (options.map fun opt =>
          Multi.expValues q b opt * (Multi.denominator options q b)⁻¹).sum := by
      refine congrArg List.sum (List.map_congr_left ?_)
      intro a _
      rw [Multi.prices, div_eq_mul_inv]
    rw [this, List.sum_map_mul_right, ← Multi.denominator,
      mul_inv_cancel₀ hden.ne']

/-- Claim C4 witness: a concrete two-outcome quote. -/
theorem prices_form_probability_distribution_witness :
    0 < Multi.prices ["yes", "no"] (fun _ => 0) 1 "yes"
    ∧ (["yes", "no"].map (Multi.prices ["yes", "no"] (fun _ => 0) 1)).sum = 1 :=
  ⟨((prices_form_probability_distribution ["yes", "no"] (fun _ => 0) 1 one_pos
      (by simp)).1 "yes" (by simp)).1,
   (prices_form_probability_distribution ["yes", "no"] (fun _ => 0) 1 one_pos
      (by simp)).2⟩

/-- Claim C7: the cost function is non-decreasing in every coordinate of
the quantity vector, and the cost of buying s > 0 shares of a declared
outcome is at least 0 and at most s. -/
theorem cost_monotone_and_trade_cost_bounded (options : List String) (b : ℝ)
    (hb : 0 < b) (hne : options ≠ []) :
    (∀ (q : String → ℝ) (i : String) (d : ℝ), 0 ≤ d →
        Multi.cost options q b ≤ Multi.cost options (Multi.updateQ q i d) b)
    ∧ ∀ (q : String → ℝ) (i : String) (s : ℝ), i ∈ options → 0 < s →
        0 ≤ Multi.cost options (Multi.updateQ q i s) b - Multi.cost options q b
        ∧ Multi.cost options (Multi.updateQ q i s) b - Multi.cost options q b ≤ s := by
  constructor
  · intro q i d hd
    exact Multi.cost_mono_update options q b i d hb hne hd
  · intro q i s _ hs
    constructor
    · have := Multi.cost_mono_update options q b i s hb hne hs.le
      linarith
    · have := Multi.cost_update_le options q b i s hb hne hs.le
      linarith

/-- Claim C7 witness: the bounds at a concrete state and trade. -/
theorem cost_monotone_and_trade_cost_bounded_witness :
    Multi.cost ["yes", "no"] (fun _ => 0) 1 ≤
      Multi.cost ["yes", "no"] (Multi.updateQ (fun _ => 0) "yes" 2) 1
    ∧ Multi.cost ["yes", "no"] (Multi.updateQ (fun _ => 0) "yes" 2) 1 -
        Multi.cost ["yes", "no"] (fun _ => 0) 1 ≤ 2 :=
  ⟨(cost_monotone_and_trade_cost_bounded ["yes", "no"] 1 one_pos
      (by simp)).1 (fun _ => 0) "yes" 2 (by norm_num),
   ((cost_monotone_and_trade_cost_bounded ["yes", "no"] 1 one_pos
      (by simp)).2 (fun _ => 0) "yes" 2 (by simp) (by norm_num)).2⟩

/-- Claim C9: quoting returns the prices and cost computed from the
current quantities and hands the state back unchanged; repeating the
quote without an intervening trade gives the identical result, and a
trade builds its new quantity vector as a fresh copy, preserving every
entry of the old vector except the chosen outcome. -/
theorem quote_side_effect_free_idempotent (options : List String) (b : ℝ)
    (q : String → ℝ) (bet : String × ℝ) (q2 : String → ℝ) (tc : ℝ)
    (h : Multi.run_calculation q bet b options = Except.ok (q2, tc)) :
    (Multi.quoteOp options b q).2 = q
    ∧ (Multi.quoteOp options b ((Multi.quoteOp options b q).2)).1 =
        (Multi.quoteOp options b q).1
    ∧ (∀ opt, opt ≠ bet.1 → q2 opt = q opt)
    ∧ q2 bet.1 = q bet.1 + bet.2 := by
  refine ⟨rfl, rfl, ?_⟩
  rw [Multi.run_calculation] at h
  by_cases hm : bet.1 ∈ options
  · rw [if_pos hm] at h
    injection h with h2
    have hq2 : Multi.updateQ q bet.1 bet.2 = q2 := congrArg Prod.fst h2
    subst hq2
    constructor
    · intro opt hopt
      simp [Multi.updateQ, hopt]
    · simp [Multi.updateQ]
  · rw [if_neg hm] at h
    exact absurd h (by simp)

/-- Claim C9 witness: quoting a concrete state. -/
theorem quote_side_effect_free_idempotent_witness :
    (Multi.quoteOp ["yes", "no"] 1 (fun _ => 0)).2 = (fun _ => (0 : ℝ))
    ∧ Multi.updateQ (fun _ => 0) "yes" 2 "no" = (0 : ℝ)
    ∧ Multi.updateQ (fun _ => 0) "yes" 2 "yes" = 0 + 2 := by
  have h := quote_side_effect_free_idempotent ["yes", "no"] 1 (fun _ => 0) ("yes", 2)
    (Multi.updateQ (fun _ => 0) "yes" 2)
    (Multi.cost ["yes", "no"] (Multi.updateQ (fun _ => 0) "yes" 2) 1 -
      Multi.cost ["yes", "no"] (fun _ => 0) 1)
    (by rw [Multi.run_calculation, if_pos (by simp : (("yes", (2:ℝ)).1 ∈ ["yes", "no"]))])
  exact ⟨h.1, by simpa using h.2.2.1 "no" (by decide), h.2.2.2⟩

/-- Claim C1 (code-bug evidence): both scripts evaluate log-sum-exp by
direct exponentiation, not the max-shift algorithm; at q_Grant = 100000,
b = 10 (q/b = 10000) the intermediate exp value equals e^10000, which
exceeds 2^1024 and hence the IEEE double range, while over the reals the
spec's StableLogSumExp agrees with the naive formula at the spec's small
example q = [10,20,23], b = 10. -/
theorem naive_exponentiation_overflow_evidence :
    Multi.expValues (fun _ => 100000) 10 "Grant" = Real.exp 10000
    ∧ (2 : ℝ) ^ (1024 : ℕ) < Real.exp 10000
    ∧ Multi.cost ["Grant", "JB", "Connor"]
        (fun opt => if opt = "Grant" then 10 else if opt = "JB" then 20 else 23) 10 =
      10 * Real.log (Real.exp 1 + Real.exp 2 + Real.exp 2.3)
    ∧ stableLogSumExp [1, 2, 2.3] =
        Except.ok (Real.log (Real.exp 1 + Real.exp 2 + Real.exp 2.3)) := by
  refine ⟨by norm_num [Multi.expValues], ?_, ?_, ?_⟩
  · have h2e : (2 : ℝ) < Real.exp 1 :=
      lt_trans (by norm_num) Real.exp_one_gt_d9
    have hpow : (2 : ℝ) ^ (1024 : ℕ) < (2 : ℝ) ^ (10000 : ℕ) :=
      pow_lt_pow_right₀ one_lt_two (by norm_num)
    have hle : (2 : ℝ) ^ (10000 : ℕ) ≤ Real.exp 1 ^ (10000 : ℕ) :=
      pow_le_pow_left (by norm_num) h2e.le 10000
    have hexp : Real.exp 1 ^ (10000 : ℕ) = Real.exp 10000 := by
      rw [← Real.exp_nat_mul]
      norm_num
    calc (2 : ℝ) ^ (1024 : ℕ) < (2 : ℝ) ^ (10000 : ℕ) := hpow
      _ ≤ Real.exp 1 ^ (10000 : ℕ) := hle
      _ = Real.exp 10000 := hexp
  · have hJG : ("JB" : String) ≠ "Grant" := by decide
    have hCG : ("Connor" : String) ≠ "Grant" := by decide
    have hCJ : ("Connor" : String) ≠ "JB" := by decide
    simp only [Multi.cost, Multi.denominator, Multi.expValues, List.map_cons,
      List.map_nil, List.sum_cons, List.sum_nil, if_pos rfl, if_neg hJG,
      if_neg hCG, if_neg hCJ]
    norm_num
    ring_nf
  · simp only [stableLogSumExp]
    rw [show ([2, 2.3] : List ℝ).foldl max 1 = 2.3 by
      simp only [List.foldl]
      norm_num]
    rw [logsumexp_shift [1, 2, 2.3] 2.3 (by simp)]
    simp only [List.map_cons, List.map_nil, List.sum_cons, List.sum_nil]
    rw [add_zero, ← add_assoc]

/-- Claim C5 counterexample: the binary engine does not reject a trade on
an undeclared outcome; it returns normally with cost 0 and appends the
bogus trade to the log, which therefore changes. -/
theorem binary_unknown_outcome_accepted :
    Single.run_market [("nonexistent", 5)] 10 = (0, 0, [⟨"nonexistent", 5, 0⟩])
    ∧ ([⟨"nonexistent", 5, 0⟩] : List Trade) ≠ [] := by
  constructor
  · have hy : ("nonexistent" : String) ≠ "yes" := by decide
    have hn : ("nonexistent" : String) ≠ "no" := by decide
    simp [Single.run_market, Single.runMarketAux, Single.run_calculation, hy, hn]
  · simp

/-- Claim C5 amended: the N-ary engine rejects a trade on an undeclared
outcome with a ValueError and the run aborts with no state committed; the
binary engine performs no validation and accepts such a trade, leaving
the quantities unchanged, charging cost 0, and still appending the trade
to the log. -/
theorem unknown_outcome_rejection_amended (options : List String) (b : ℝ)
    (q : String → ℝ) (bet : String × ℝ) (rest : List (String × ℝ))
    (trades : List Trade) (hm : bet.1 ∉ options) :
    Multi.run_calculation q bet b options = Except.error "ValueError: Invalid choice"
    ∧ Multi.runMarketAux options b (bet :: rest) q trades =
        Except.error "ValueError: Invalid choice"
    ∧ ∀ (q_yes q_no shares b2 : ℝ) (choice : String),
        choice ≠ "yes" → choice ≠ "no" →
        Single.run_calculation q_yes q_no (choice, shares) b2 = (q_yes, q_no, 0)
        ∧ Single.runMarketAux b2 [(choice, shares)] q_yes q_no trades =
            (q_yes, q_no, trades ++ [⟨choice, shares, 0⟩]) := by
  refine ⟨?_, Multi.runMarketAux_cons_not_mem options b bet rest q trades hm, ?_⟩
  · rw [Multi.run_calculation, if_neg hm]
  · intro qy qn s b2 choice hy hn
    have hcalc : Single.run_calculation qy qn (choice, s) b2 = (qy, qn, 0) := by
      simp [Single.run_calculation, hy, hn]
    exact ⟨hcalc, by simp [Single.runMarketAux, hcalc]⟩

/-- Claim C5 amended witness: concrete unknown-outcome trades. -/
theorem unknown_outcome_rejection_amended_witness :
    Multi.run_calculation (fun _ => 0) ("x", 1) 1 ["yes", "no"] =
      Except.error "ValueError: Invalid choice"
    ∧ Single.run_calculation 0 0 ("x", 1) 1 = (0, 0, 0) := by
  have h := unknown_outcome_rejection_amended ["yes", "no"] 1 (fun _ => 0) ("x", 1)
    [] [] (by decide)
  exact ⟨h.1, (h.2.2 0 0 1 1 "x" (by decide) (by decide)).1⟩

/-- Claim C8: the end-to-end binary scenario with b = 10: after the trades
yes 5, no 3, yes 5 from the zero state, q_yes = 10 and q_no = 3, the final
yes-price is e^1 / (e^1 + e^0.3), and the total payout if yes wins is 10. -/
theorem binary_end_to_end_scenario :
    (Single.run_market [("yes", 5), ("no", 3), ("yes", 5)] 10).1 = 10
    ∧ (Single.run_market [("yes", 5), ("no", 3), ("yes", 5)] 10).2.1 = 3
    ∧ Single.final_price_yes
        (Single.run_market [("yes", 5), ("no", 3), ("yes", 5)] 10).1
        (Single.run_market [("yes", 5), ("no", 3), ("yes", 5)] 10).2.1 10 =
      Real.exp 1 / (Real.exp 1 + Real.exp 0.3)
    ∧ Single.total_payout_if_yes
        (Single.run_market [("yes", 5), ("no", 3), ("yes", 5)] 10).2.2 = 10 := by
  have hA : ("no" : String) ≠ "yes" := by decide
  have hB : ("yes" : String) ≠ "no" := by decide
  have hq : (Single.run_market [("yes", 5), ("no", 3), ("yes", 5)] 10).1 = 10 ∧
      (Single.run_market [("yes", 5), ("no", 3), ("yes", 5)] 10).2.1 = 3 := by
    constructor <;>
      simp [Single.run_market, Single.runMarketAux, Single.run_calculation, hA, hB] <;>
      norm_num
  refine ⟨hq.1, hq.2, ?_, ?_⟩
  · rw [hq.1, hq.2, Single.final_price_yes]
    norm_num
  · simp [Single.run_market, Single.runMarketAux, Single.run_calculation,
      Single.total_payout_if_yes, hA, hB]
    norm_num
